import Mathlib

/-!
Shallow embedding of `src/lib/parser.ts` of the Starmap repository.

Strings are embedded as `List Char` (`Str`).  The external collaborators
(URL validator, owner/repo resolver, heading classifier, ETA scanner,
HTML parsing) are out of scope per the spec and are passed in as a
`Collaborators` bundle of pure functions; fallible collaborators return
`Option`.  JavaScript string operations used by the source
(`indexOf`, `split` on a regex or literal, `trim`, `replace`,
`startsWith`) are embedded with JS semantics.
-/

namespace Starmap

abbrev Str := List Char

/-- JS `needle` is a prefix of `haystack` (used for `indexOf` search). -/
def leadsWith : Str → Str → Bool
  | [], _ => true
  | _ :: _, [] => false
  | p :: ps, c :: cs => p == c && leadsWith ps cs

/-- JS `text.indexOf(pat)` followed by `text.substring(i)`: the suffix of
`text` starting at the first occurrence of `pat`, or `none` when `pat`
does not occur (`indexOf === -1`). -/
def dropUntilSub (pat : Str) : Str → Option Str
  | [] => if leadsWith pat [] then some [] else none
  | c :: rest =>
    if leadsWith pat (c :: rest) then some (c :: rest) else dropUntilSub pat rest

/-- JS `haystack.includes(pat)`. -/
def hasSub (pat l : Str) : Bool := (dropUntilSub pat l).isSome

/-- A character matched by the regex class `[\r\n]`. -/
def isCRLF (c : Char) : Bool := c == '\r' || c == '\n'

/-- JS `s.split(/[\r\n]+/)`: fields between maximal runs of CR/LF
characters (`inRun` records whether the previous character belonged to a
run, so a run yields a single field boundary). -/
def splitCRLFAux : Bool → Str → Str → List Str
  | _, acc, [] => [acc.reverse]
  | inRun, acc, c :: rest =>
    if isCRLF c then
      if inRun then splitCRLFAux true acc rest
      else acc.reverse :: splitCRLFAux true [] rest
    else splitCRLFAux false (c :: acc) rest

def splitCRLF (l : Str) : List Str := splitCRLFAux false [] l

/-- JS `WhiteSpace`/`LineTerminator` characters removed by `trim()`. -/
def isJsSpace (c : Char) : Bool :=
  c.toNat == 9 || c.toNat == 10 || c.toNat == 11 || c.toNat == 12 ||
  c.toNat == 13 || c.toNat == 32 || c.toNat == 160 || c.toNat == 0x1680 ||
  (0x2000 ≤ c.toNat && c.toNat ≤ 0x200a) || c.toNat == 0x2028 ||
  c.toNat == 0x2029 || c.toNat == 0x202f || c.toNat == 0x205f ||
  c.toNat == 0x3000 || c.toNat == 0xfeff

/-- JS `s.trim()`. -/
def jsTrim (l : Str) : Str :=
  ((l.dropWhile isJsSpace).reverse.dropWhile isJsSpace).reverse

/-- JS `s.split(sep)` for a single-character separator string. -/
def splitOnCharAux (sep : Char) : Str → Str → List Str
  | acc, [] => [acc.reverse]
  | acc, c :: rest =>
    if c == sep then acc.reverse :: splitOnCharAux sep [] rest
    else splitOnCharAux sep (c :: acc) rest

def splitOnChar (sep : Char) (l : Str) : List Str := splitOnCharAux sep [] l

/-- JS `s.split('](')` (the only multi-character split the source uses). -/
def splitLinkSepAux : Str → Str → List Str
  | acc, [] => [acc.reverse]
  | acc, c :: [] => [(c :: acc).reverse]
  | acc, c1 :: c2 :: rest =>
    if c1 == ']' && c2 == '(' then acc.reverse :: splitLinkSepAux [] rest
    else splitLinkSepAux (c1 :: acc) (c2 :: rest)

def splitLinkSep (l : Str) : List Str := splitLinkSepAux [] l

/-- JS `arr.slice(-1)[0]` on a non-empty array of strings. -/
def lastSeg (ls : List Str) : Str := ls.getLastD []

/-- JS `s.replace(t, '')` for a single-character pattern: removes the
first occurrence of `t`, if any. -/
def removeFirst (t : Char) : Str → Str
  | [] => []
  | c :: rest => if c == t then rest else c :: removeFirst t rest

/-- Source: `const getUrlFromMarkdownText = (line) =>
line.trim().split('](').slice(-1)[0].replace(')', '')`. -/
def getUrlFromMarkdownText (line : Str) : Str :=
  removeFirst ')' (lastSeg (splitLinkSep (jsTrim line)))

/-- Source: `getSectionLines(text, sectionHeader)`. -/
def getSectionLines (text sectionHeader : Str) : List Str :=
  match dropUntilSub sectionHeader text with
  | none => []
  | some suffix => ((splitCRLF suffix).drop 1).map getUrlFromMarkdownText

/-- Source: `const splitAndGetLastItem = (line) =>
line.trim().split(' ').slice(-1)[0]`. -/
def splitAndGetLastItem (line : Str) : Str :=
  lastSeg (splitOnChar ' ' (jsTrim line))

/-- Source: `const ensureTaskListChild = (line) =>
line.trim().indexOf('-') === 0` (true iff the trimmed line starts
with a dash). -/
def ensureTaskListChild (line : Str) : Bool :=
  match jsTrim line with
  | c :: _ => c == '-'
  | [] => false

/-- The regex `/^#\d+$/` of `getUrlStringForChildrenLine`: a hash mark,
then one or more digits, then the end of the line. -/
def matchesShortIssueRef : Str → Bool
  | [] => false
  | c :: ds => c == '#' && !ds.isEmpty && ds.all (fun d => d.isDigit)

/-- JS `line.startsWith('<')`. -/
def startsWithLt : Str → Bool
  | [] => false
  | c :: _ => c == '<'

/-- Result of the external URL validator `getValidUrlFromInput`. -/
structure ParsedUrl where
  host : Str
  href : Str
deriving DecidableEq, Repr

/-- An anchor element as seen by the legacy HTML strategy: its `href`
attribute and its `data-hovercard-type` attribute, each possibly absent. -/
structure UlAnchor where
  href : Option Str
  hovercardType : Option Str
deriving DecidableEq, Repr

/-- A `<ul>` element as seen by the legacy HTML strategy: the
`textContent` of its immediately preceding sibling element (absent when
there is no such sibling) and its anchor descendants in document order. -/
structure UlList where
  prevSiblingText : Option Str
  anchors : List UlAnchor
deriving DecidableEq, Repr

/-- The external collaborators of `parser.ts` (out of scope per the
spec), as pure functions; fallible ones return `Option`. `flattenHtml`
is `parseHTML` + `querySelectorAll('*')` + joining the elements'
`textContent` with newlines, `parseUls` is `parseHTML` +
`querySelectorAll('ul')`. -/
structure Collaborators where
  getValidUrlFromInput : Str → Option ParsedUrl
  paramsFromUrl : Str → Option (Str × Str)
  isValidChildren : Option Str → Bool
  getEtaDate : Str → Option Str
  flattenHtml : Str → Str
  parseUls : Str → List UlList

/-- The issue record consumed by `getChildren`
(`Pick<GithubIssueData, 'body_html' | 'body' | 'html_url'>`). -/
structure ChildIssue where
  body : Str
  body_html : Str
  html_url : Str
deriving DecidableEq, Repr

/-- The issue record consumed by `getDueDate`; `html_url` and
`root_issue` are `Option` because the source tests them against
`null`/`undefined` (`!= null`, `!== true`). -/
structure DueIssue where
  html_url : Option Str
  body_html : Str
  root_issue : Option Bool
  title : Str
deriving DecidableEq, Repr

/-- Output record (`ParserGetChildrenResponse`); `group` is `Option`
because the legacy strategy's list title comes from an optional
preceding sibling. -/
structure ParserGetChildrenResponse where
  group : Option Str
  html_url : Str
deriving DecidableEq, Repr

/-- An entry appended by `errorManager.addError`. -/
structure ErrorEntry where
  issue : DueIssue
  userGuideSection : Str
  errorTitle : Str
  errorMessage : Str
deriving DecidableEq, Repr

/-- Return value of `getDueDate`. -/
structure EtaResult where
  eta : Str
deriving DecidableEq, Repr

/-- Source: `getDueDate(issue, errorManager)`.  The error manager is
embedded as the list of entries collected so far; the result pairs the
returned value with the updated list. -/
def getDueDate (C : Collaborators) (issue : DueIssue)
    (errorManager : List ErrorEntry) : EtaResult × List ErrorEntry :=
  let issueText := C.flattenHtml issue.body_html
  match C.getEtaDate issueText with
  | some eta => (⟨eta⟩, errorManager)
  | none =>
    if issue.html_url.isSome && issue.root_issue != some true then
      (⟨[]⟩, errorManager ++
        [⟨issue, "#eta".data, "ETA not found".data,
          "ETA not found in issue body".data⟩])
    else (⟨[]⟩, errorManager)

/-- The validation tail of `getUrlStringForChildrenLine`:
`getValidUrlFromInput` then the `url.host.includes('github.com')`
check, returning `url.href`. -/
def validateChildUrl (C : Collaborators) (line : Str) : Option Str :=
  match C.getValidUrlFromInput line with
  | none => none
  | some url => if hasSub "github.com".data url.host then some url.href else none

/-- Source: `getUrlStringForChildrenLine(line, issue)`; `none` embeds a
throw. -/
def getUrlStringForChildrenLine (C : Collaborators) (issue_html_url line : Str) :
    Option Str :=
  if matchesShortIssueRef line then
    match C.paramsFromUrl issue_html_url with
    | none => none
    | some (owner, repo) => validateChildUrl C (owner ++ '/' :: (repo ++ line))
  else validateChildUrl C line

/-- Source: `getValidChildrenLinks(lines, issue)`: pushes each resolved
line and breaks at the first failure. -/
def getValidChildrenLinks (C : Collaborators) (lines : List Str)
    (issue_html_url : Str) : List Str :=
  match lines with
  | [] => []
  | line :: rest =>
    match getUrlStringForChildrenLine C issue_html_url line with
    | some u => u :: getValidChildrenLinks C rest issue_html_url
    | none => []

/-- Source: `convertLinesToChildren(lines, issue, group)`. -/
def convertLinesToChildren (C : Collaborators) (lines : List Str)
    (issue_html_url : Str) (group : Str) : List ParserGetChildrenResponse :=
  (getValidChildrenLinks C lines issue_html_url).map
    (fun html_url => ⟨some group, html_url⟩)

/-- The two `Error(...)` messages thrown by the text strategies. -/
inductive ParseError where
  | sectionMissingOrEmpty
  | htmlTagsFound
deriving DecidableEq, Repr

/-- The candidate lines of `getChildrenFromTaskList`:
`getSectionLines(issue.body, '```[tasklist]')` filtered by
`ensureTaskListChild`, mapped by `splitAndGetLastItem`, with falsy
(empty) results dropped. -/
def taskListLines (body : Str) : List Str :=
  (((getSectionLines body "```[tasklist]".data).filter ensureTaskListChild).map
    splitAndGetLastItem).filter (fun l => !l.isEmpty)

/-- Source: `getChildrenFromTaskList(issue)`; `Except.error` embeds a
throw. -/
def getChildrenFromTaskList (C : Collaborators) (issue : ChildIssue) :
    Except ParseError (List ParserGetChildrenResponse) :=
  let lines := taskListLines issue.body
  if lines.isEmpty then .error .sectionMissingOrEmpty
  else .ok (convertLinesToChildren C lines issue.html_url "tasklist".data)

/-- The candidate lines of the `children:` branch of `getChildrenNew`:
`getSectionLines(issue.body, 'children:')` mapped by
`splitAndGetLastItem`, with falsy (empty) results dropped. -/
def childrenLines (body : Str) : List Str :=
  ((getSectionLines body "children:".data).map splitAndGetLastItem).filter
    (fun l => !l.isEmpty)

/-- Source: `getChildrenNew(issue)`: tries the tasklist strategy,
catching any failure, then the `children:` strategy with its emptiness
check and its leading-`<` guard. -/
def getChildrenNew (C : Collaborators) (issue : ChildIssue) :
    Except ParseError (List ParserGetChildrenResponse) :=
  match getChildrenFromTaskList C issue with
  | .ok r => .ok r
  | .error _ =>
    let lines := childrenLines issue.body
    if lines.isEmpty then .error .sectionMissingOrEmpty
    else if lines.any startsWithLt then .error .htmlTagsFound
    else .ok (convertLinesToChildren C lines issue.html_url "children:".data)

/-- `list.previousElementSibling?.textContent?.trim()`. -/
def ulTitle (l : UlList) : Option Str := l.prevSiblingText.map jsTrim

/-- The CSS selector `a[href][data-hovercard-type*="issue"]`: both
attributes present and the hovercard type containing `"issue"`. -/
def anchorMatches (a : UlAnchor) : Bool :=
  a.href.isSome &&
    (match a.hovercardType with
     | some h => hasSub "issue".data h
     | none => false)

/-- The legacy HTML branch of `getChildren`: filter the `<ul>` lists by
the heading classifier, build `{ group, hrefs }` pairs (the source's
`reduce`), then flatten to one record per href (the source's
`map`+`flat`). -/
def legacyHtmlChildren (C : Collaborators) (body_html : Str) :
    List ParserGetChildrenResponse :=
  let ulLists := C.parseUls body_html
  let filtered := ulLists.filter (fun l => C.isValidChildren (ulTitle l))
  let grouped := filtered.map
    (fun b => (ulTitle b, (b.anchors.filter anchorMatches).map (fun a => a.href.getD [])))
  (grouped.map (fun p => p.2.map
    (fun href => ParserGetChildrenResponse.mk p.1 href))).flatten

/-- Source: `getChildren(issue)`: the new text strategies, falling back
to the legacy HTML strategy on any failure. -/
def getChildren (C : Collaborators) (issue : ChildIssue) :
    List ParserGetChildrenResponse :=
  match getChildrenNew C issue with
  | .ok r => r
  | .error _ => legacyHtmlChildren C issue.body_html

/-! ## Witness inputs: concrete collaborator bundles and issues -/

/-- A collaborator bundle whose URL validator accepts every input with
host `github.com`, returning the input as `href`. -/
def wGithubCollab : Collaborators where
  getValidUrlFromInput := fun s => some ⟨"github.com".data, s⟩
  paramsFromUrl := fun _ => some ("o".data, "r".data)
  isValidChildren := fun _ => false
  getEtaDate := fun _ => none
  flattenHtml := fun s => s
  parseUls := fun _ => []

/-- A collaborator bundle whose fallible collaborators all fail. -/
def wFailCollab : Collaborators where
  getValidUrlFromInput := fun _ => none
  paramsFromUrl := fun _ => none
  isValidChildren := fun _ => false
  getEtaDate := fun _ => none
  flattenHtml := fun s => s
  parseUls := fun _ => []

/-- An issue whose body has both a tasklist block and a `children:`
line list. -/
def wPrecIssue : ChildIssue :=
  ⟨"```[tasklist]\n- a\nchildren:\nb\n".data, [], "u".data⟩

/-- An issue whose body has a `children:` section whose surviving line
starts with `<`, and no tasklist block. -/
def wGuardIssue : ChildIssue := ⟨"children:\n<a\n".data, [], []⟩

/-! ## Claims -/

/-- Claim C2: `getValidChildrenLinks` returns exactly the longest prefix
of the candidate lines on which `getUrlStringForChildrenLine` succeeds,
mapped to the resolved URLs in line order; it stops at the first failing
line, so a resolvable line after a failing one is excluded rather than
reported as an error. -/
theorem getValidChildrenLinks_takeWhile (C : Collaborators) (u : Str)
    (lines : List Str) :
    getValidChildrenLinks C lines u =
      (lines.takeWhile
        (fun l => (getUrlStringForChildrenLine C u l).isSome)).map
        (fun l => (getUrlStringForChildrenLine C u l).getD []) := by
  induction lines with
  | nil => rfl
  | cons l rest ih =>
    cases h : getUrlStringForChildrenLine C u l with
    | none => simp [getValidChildrenLinks, List.takeWhile_cons, h]
    | some v => simp [getValidChildrenLinks, List.takeWhile_cons, h, ih]

/-- Claim C10: when the ETA scanner succeeds on the flattened body HTML,
`getDueDate` returns the scanned value and leaves the error collector
unchanged, regardless of `html_url` or `root_issue`. -/
theorem getDueDate_success_frame (C : Collaborators) (issue : DueIssue)
    (errs : List ErrorEntry) (s : Str)
    (h : C.getEtaDate (C.flattenHtml issue.body_html) = some s) :
    getDueDate C issue errs = (⟨s⟩, errs) := by
  simp [getDueDate, h]

/-- Witness for claim C10 at a concrete scanner, issue and collector. -/
def wEtaCollab : Collaborators where
  getValidUrlFromInput := fun _ => none
  paramsFromUrl := fun _ => none
  isValidChildren := fun _ => false
  getEtaDate := fun _ => some "2023Q2".data
  flattenHtml := fun s => s
  parseUls := fun _ => []

theorem getDueDate_success_frame_witness :
    getDueDate wEtaCollab ⟨some "h".data, "b".data, some true, []⟩ [] =
      (⟨"2023Q2".data⟩, []) :=
  getDueDate_success_frame wEtaCollab ⟨some "h".data, "b".data, some true, []⟩ []
    "2023Q2".data rfl

/-- Claim C1: when an issue's body yields at least one surviving tasklist
line and at least one surviving `children:` line, `getChildren` returns
the tasklist strategy's result — the resolved tasklist lines in
top-to-bottom order, every record carrying group `"tasklist"` — and the
`children:` lines contribute no records. -/
theorem getChildren_tasklist_precedence (C : Collaborators) (issue : ChildIssue)
    (htl : taskListLines issue.body ≠ [])
    (hcl : childrenLines issue.body ≠ []) :
    getChildren C issue =
      (getValidChildrenLinks C (taskListLines issue.body) issue.html_url).map
        (fun u => ⟨some "tasklist".data, u⟩) ∧
    ∀ r ∈ getChildren C issue, r.group = some "tasklist".data := by
  have hne : (taskListLines issue.body).isEmpty = false := by
    cases h : taskListLines issue.body with
    | nil => exact absurd h htl
    | cons a l => rfl
  have hmain : getChildren C issue =
      (getValidChildrenLinks C (taskListLines issue.body) issue.html_url).map
        (fun u => ⟨some "tasklist".data, u⟩) := by
    simp [getChildren, getChildrenNew, getChildrenFromTaskList, hne,
      convertLinesToChildren]
  refine ⟨hmain, ?_⟩
  intro r hr
  rw [hmain] at hr
  obtain ⟨u, hu, rfl⟩ := List.mem_map.mp hr
  rfl

theorem getChildren_tasklist_precedence_witness :
    getChildren wGithubCollab wPrecIssue =
      (getValidChildrenLinks wGithubCollab (taskListLines wPrecIssue.body)
        wPrecIssue.html_url).map (fun u => ⟨some "tasklist".data, u⟩) ∧
    ∀ r ∈ getChildren wGithubCollab wPrecIssue, r.group = some "tasklist".data :=
  getChildren_tasklist_precedence wGithubCollab wPrecIssue (by decide) (by decide)

/-- Claim C4: when the tasklist strategy fails and the `children:`
section yields at least one surviving line of which some line starts
with `<`, `getChildrenNew` fails with the guard violation
(`HTML tags found in body_text`) and `getChildren` falls back to the
legacy HTML strategy. -/
theorem getChildrenNew_guard_violation (C : Collaborators) (issue : ChildIssue)
    (htl : ∃ e, getChildrenFromTaskList C issue = .error e)
    (hne : childrenLines issue.body ≠ [])
    (hlt : (childrenLines issue.body).any startsWithLt = true) :
    getChildrenNew C issue = .error .htmlTagsFound ∧
    getChildren C issue = legacyHtmlChildren C issue.body_html := by
  obtain ⟨e, he⟩ := htl
  have hni : (childrenLines issue.body).isEmpty = false := by
    cases h : childrenLines issue.body with
    | nil => exact absurd h hne
    | cons a l => rfl
  have h1 : getChildrenNew C issue = .error .htmlTagsFound := by
    simp [getChildrenNew, he, hni, hlt]
  exact ⟨h1, by simp [getChildren, h1]⟩

theorem getChildrenNew_guard_violation_witness :
    getChildrenNew wFailCollab wGuardIssue = .error .htmlTagsFound ∧
    getChildren wFailCollab wGuardIssue =
      legacyHtmlChildren wFailCollab wGuardIssue.body_html :=
  getChildrenNew_guard_violation wFailCollab wGuardIssue
    ⟨.sectionMissingOrEmpty, rfl⟩ (by decide) (by decide)

/-- Claim C9: when the winning text strategy (tasklist, or `children:`
with the guard passing) has at least one surviving candidate line but
the first line fails resolution, `getChildren` succeeds with the empty
sequence: it neither raises nor falls back to the legacy HTML strategy,
because emptiness is only checked before resolution. -/
theorem getChildren_empty_after_failed_resolution (C : Collaborators)
    (issue : ChildIssue) :
    (∀ l rest, taskListLines issue.body = l :: rest →
      getUrlStringForChildrenLine C issue.html_url l = none →
      getChildrenNew C issue = .ok [] ∧ getChildren C issue = []) ∧
    (taskListLines issue.body = [] →
      ∀ l rest, childrenLines issue.body = l :: rest →
      (childrenLines issue.body).any startsWithLt = false →
      getUrlStringForChildrenLine C issue.html_url l = none →
      getChildrenNew C issue = .ok [] ∧ getChildren C issue = []) := by
  constructor
  · intro l rest hl hres
    have h1 : getChildrenNew C issue = .ok [] := by
      simp [getChildrenNew, getChildrenFromTaskList, hl,
        convertLinesToChildren, getValidChildrenLinks, hres]
    exact ⟨h1, by simp [getChildren, h1]⟩
  · intro htl l rest hl hguard hres
    rw [hl] at hguard
    have h1 : getChildrenNew C issue = .ok [] := by
      rw [getChildrenNew, getChildrenFromTaskList, htl]
      simp [hl, convertLinesToChildren, getValidChildrenLinks, hres]
      simpa using hguard
    exact ⟨h1, by simp [getChildren, h1]⟩

/-- Claim C8: `getChildren` is deterministic in its input record: two
invocations on the same record (or on records with equal `body`,
`body_html` and `html_url` fields) return identical sequences, with no
hidden cross-call state. -/
theorem getChildren_deterministic (C : Collaborators) (issue issue2 : ChildIssue)
    (hb : issue.body = issue2.body) (hbh : issue.body_html = issue2.body_html)
    (hu : issue.html_url = issue2.html_url) :
    getChildren C issue = getChildren C issue ∧
    getChildren C issue = getChildren C issue2 := by
  obtain ⟨b, bh, u⟩ := issue
  obtain ⟨b2, bh2, u2⟩ := issue2
  cases hb
  cases hbh
  cases hu
  exact ⟨rfl, rfl⟩

theorem getChildren_deterministic_witness :
    getChildren wGithubCollab wPrecIssue = getChildren wGithubCollab wPrecIssue ∧
    getChildren wGithubCollab wPrecIssue = getChildren wGithubCollab wPrecIssue :=
  getChildren_deterministic wGithubCollab wPrecIssue wPrecIssue rfl rfl rfl

/-- Claim C5: a normalized candidate line consisting exactly of a hash
mark followed by one or more digits is rewritten to
`owner/repo#N` — with owner and repo obtained from the issue's
`html_url` — before URL validation, and a line of any other shape is
passed to validation unchanged. -/
theorem getUrlStringForChildrenLine_short_ref (C : Collaborators)
    (issue_html_url line : Str) :
    (getUrlStringForChildrenLine C issue_html_url line =
      if matchesShortIssueRef line then
        (C.paramsFromUrl issue_html_url).bind
          (fun p => validateChildUrl C (p.1 ++ '/' :: (p.2 ++ line)))
      else validateChildUrl C line) ∧
    (matchesShortIssueRef line = true ↔
      ∃ ds, line = '#' :: ds ∧ ds ≠ [] ∧ ∀ d ∈ ds, d.isDigit = true) := by
  constructor
  · rw [getUrlStringForChildrenLine]
    by_cases h : matchesShortIssueRef line
    · simp only [h, if_true]
      cases hp : C.paramsFromUrl issue_html_url with
      | none => rfl
      | some p => cases p; rfl
    · simp only [h, if_false, Bool.false_eq_true]
  · cases line with
    | nil => simp [matchesShortIssueRef]
    | cons c ds =>
      simp only [matchesShortIssueRef, Bool.and_eq_true, beq_iff_eq,
        Bool.not_eq_true', List.all_eq_true, decide_eq_true_eq]
      constructor
      · rintro ⟨⟨hc, hne⟩, hall⟩
        refine ⟨ds, by rw [hc], ?_, hall⟩
        cases ds with
        | nil => exact absurd hne (by simp)
        | cons d t => simp
      · rintro ⟨ds', heq, hne, hall⟩
        obtain ⟨rfl, rfl⟩ : c = '#' ∧ ds = ds' := by
          injection heq with h1 h2
          exact ⟨h1, h2⟩
        refine ⟨⟨rfl, ?_⟩, hall⟩
        cases ds with
        | nil => exact absurd rfl hne
        | cons d t => rfl

/-- The fixed error entry appended by `getDueDate` when the ETA scanner
fails. -/
def etaErrorEntry (issue : DueIssue) : ErrorEntry :=
  ⟨issue, "#eta".data, "ETA not found".data, "ETA not found in issue body".data⟩

/-- Claim C3 counterexample: with `html_url` equal to the empty string
(so NOT non-empty) and `root_issue` absent, a failed ETA scan still
appends an error entry: the source tests `html_url != null`, which the
empty string passes, so the claim's "non-empty" condition is false. -/
theorem getDueDate_empty_url_appends :
    (⟨some "".data, [], none, []⟩ : DueIssue).html_url = some "".data ∧
    wFailCollab.getEtaDate
      (wFailCollab.flattenHtml (⟨some "".data, [], none, []⟩ : DueIssue).body_html) =
      none ∧
    (getDueDate wFailCollab ⟨some "".data, [], none, []⟩ []).2 ≠ [] := by
  refine ⟨rfl, rfl, ?_⟩
  decide

/-- Claim C3 (amended): `getDueDate` never fails outward and always
returns the scanned ETA string or the empty string; it appends exactly
one fixed error entry to the collector if and only if the scanner fails,
`issue.html_url` is present (not null/undefined — an empty string still
counts as present) and `issue.root_issue` is not `true`; in every other
case the collector is unchanged. -/
theorem getDueDate_error_iff (C : Collaborators) (issue : DueIssue)
    (errs : List ErrorEntry) :
    (getDueDate C issue errs).1.eta =
      (C.getEtaDate (C.flattenHtml issue.body_html)).getD [] ∧
    ((getDueDate C issue errs).2 = errs ∨
      (getDueDate C issue errs).2 = errs ++ [etaErrorEntry issue]) ∧
    ((getDueDate C issue errs).2 = errs ++ [etaErrorEntry issue] ↔
      (C.getEtaDate (C.flattenHtml issue.body_html) = none ∧
        issue.html_url ≠ none ∧ issue.root_issue ≠ some true)) := by
  have hlen : ∀ e : ErrorEntry, errs ≠ errs ++ [e] := by
    intro e h
    have := congrArg List.length h
    simp at this
  have hcond : (issue.html_url.isSome && issue.root_issue != some true) = true ↔
      (issue.html_url ≠ none ∧ issue.root_issue ≠ some true) := by
    rw [Bool.and_eq_true, Option.isSome_iff_ne_none, bne_iff_ne]
  cases hscan : C.getEtaDate (C.flattenHtml issue.body_html) with
  | some s =>
    have hd : getDueDate C issue errs = (⟨s⟩, errs) := by
      simp [getDueDate, hscan]
    rw [hd]
    refine ⟨rfl, Or.inl rfl, ?_⟩
    constructor
    · intro h
      exact absurd h (hlen _)
    · rintro ⟨h, -⟩
      cases h
  | none =>
    by_cases hc : (issue.html_url.isSome && issue.root_issue != some true) = true
    · have hd : getDueDate C issue errs = (⟨[]⟩, errs ++ [etaErrorEntry issue]) := by
        rw [getDueDate]
        rw [hscan]
        rw [if_pos hc]
        rfl
      rw [hd]
      exact ⟨rfl, Or.inr rfl, by simp [hcond.mp hc]⟩
    · have hd : getDueDate C issue errs = (⟨[]⟩, errs) := by
        rw [getDueDate]
        rw [hscan]
        rw [if_neg hc]
      rw [hd]
      refine ⟨rfl, Or.inl rfl, ?_⟩
      constructor
      · intro h
        exact absurd h (hlen _)
      · rintro ⟨-, hu, hr⟩
        exact absurd (hcond.mpr ⟨hu, hr⟩) hc

/-- When `"]("` does not occur in `l`, splitting on it yields the single
segment `acc.reverse ++ l`. -/
theorem splitLinkSepAux_of_no_sep (l : Str) :
    ∀ acc : Str, dropUntilSub "](".data l = none →
      splitLinkSepAux acc l = [acc.reverse ++ l] := by
  induction l with
  | nil =>
    intro acc h
    simp [splitLinkSepAux]
  | cons c t ih =>
    intro acc h
    have hsplit : leadsWith "](".data (c :: t) = false ∧
        dropUntilSub "](".data t = none := by
      rw [dropUntilSub] at h
      by_cases hl : leadsWith "](".data (c :: t) = true
      · rw [if_pos hl] at h
        cases h
      · exact ⟨Bool.not_eq_true _ ▸ Bool.eq_false_iff.mpr hl, by
          rwa [if_neg hl] at h⟩
    cases t with
    | nil => simp [splitLinkSepAux]
    | cons c2 r =>
      have hcc : (c == ']' && c2 == '(') = false := by
        have := hsplit.1
        simp only [leadsWith, String.data] at this
        simp only [Bool.and_eq_false_iff] at this ⊢
        rcases this with h1 | h2
        · left
          cases hbe : c == ']'
          · rfl
          · rw [beq_iff_eq] at hbe
            rw [hbe] at h1
            simp at h1
        · cases hbe : c2 == '('
          · right; rfl
          · rw [beq_iff_eq] at hbe
            rw [hbe] at h2
            simp at h2
      rw [splitLinkSepAux, if_neg (by rw [hcc]; simp)]
      rw [ih (c :: acc) hsplit.2]
      simp

/-- Removing the first occurrence of an absent character is a no-op. -/
theorem removeFirst_of_not_mem (t : Char) (l : Str) (h : t ∉ l) :
    removeFirst t l = l := by
  induction l with
  | nil => rfl
  | cons c cs ih =>
    have hct : (c == t) = false := by
      cases hbe : c == t
      · rfl
      · rw [beq_iff_eq] at hbe
        subst hbe
        exact absurd (List.mem_cons_self c cs) h
    rw [removeFirst, if_neg (by rw [hct]; simp),
      ih (fun hm => h (List.mem_cons_of_mem c hm))]

/-- Claim C6 counterexample: the line `ab)c` contains no `"]("` token,
yet the per-line unwrap is not a no-op on it — the source removes the
first `)` anywhere in the line (`replace(')', '')`), not one trailing
`)`. -/
theorem getUrlFromMarkdownText_not_noop :
    dropUntilSub "](".data "ab)c".data = none ∧
    getUrlFromMarkdownText "ab)c".data ≠ "ab)c".data ∧
    getUrlFromMarkdownText "ab)c".data = "abc".data := by
  refine ⟨by decide, by decide, by decide⟩

/-- Claim C6 (amended): the section locator returns the empty sequence
when the header token does not occur; when it occurs, the result is the
text from the first occurrence onward, split on runs of CR/LF, with the
first line dropped and each remaining line passed through
`getUrlFromMarkdownText` — which trims the line, splits on `"]("`,
takes the last segment and removes the first `)` occurrence anywhere
(not one trailing `)`), a transformation that is a no-op for lines with
no `"]("`, no `)` and no surrounding whitespace. -/
theorem getSectionLines_characterization (text hdr : Str) :
    (dropUntilSub hdr text = none → getSectionLines text hdr = []) ∧
    (∀ suffix, dropUntilSub hdr text = some suffix →
      getSectionLines text hdr =
        ((splitCRLF suffix).drop 1).map getUrlFromMarkdownText) ∧
    (∀ line : Str, dropUntilSub "](".data line = none → ')' ∉ line →
      jsTrim line = line → getUrlFromMarkdownText line = line) := by
  refine ⟨?_, ?_, ?_⟩
  · intro h
    simp [getSectionLines, h]
  · intro suffix h
    simp [getSectionLines, h]
  · intro line h1 h2 h3
    rw [getUrlFromMarkdownText, h3, splitLinkSep,
      splitLinkSepAux_of_no_sep line [] h1]
    simp only [List.reverse_nil, List.nil_append]
    have hl : lastSeg [line] = line := rfl
    rw [hl]
    exact removeFirst_of_not_mem ')' line h2

/-- Claim C7: the legacy HTML strategy outputs one record per anchor
carrying both an `href` and a `data-hovercard-type` containing
`"issue"`, inside each `<ul>` whose preceding sibling's trimmed text
passes the heading classifier; each record's `html_url` is the anchor's
`href` verbatim (no `github.com` host revalidation — the output does
not consult the URL validator at all), its group is the list's heading
text, and records appear in list-then-anchor order. -/
theorem legacyHtmlChildren_characterization (C : Collaborators) (body_html : Str) :
    (legacyHtmlChildren C body_html =
      ((C.parseUls body_html).filter
        (fun ul => C.isValidChildren (ulTitle ul))).flatMap
        (fun ul => (ul.anchors.filter anchorMatches).map
          (fun a => ⟨ulTitle ul, a.href.getD []⟩))) ∧
    (∀ r ∈ legacyHtmlChildren C body_html,
      ∃ ul ∈ C.parseUls body_html,
        C.isValidChildren (ulTitle ul) = true ∧ r.group = ulTitle ul ∧
        ∃ a ∈ ul.anchors, anchorMatches a = true ∧ a.href = some r.html_url) ∧
    (∀ D : Collaborators, D.parseUls = C.parseUls →
      D.isValidChildren = C.isValidChildren →
      legacyHtmlChildren D body_html = legacyHtmlChildren C body_html) := by
  have hmain : legacyHtmlChildren C body_html =
      ((C.parseUls body_html).filter
        (fun ul => C.isValidChildren (ulTitle ul))).flatMap
        (fun ul => (ul.anchors.filter anchorMatches).map
          (fun a => ⟨ulTitle ul, a.href.getD []⟩)) := by
    simp only [legacyHtmlChildren, List.flatMap_def, List.map_map,
      Function.comp_def]
  refine ⟨hmain, ?_, ?_⟩
  · intro r hr
    rw [hmain] at hr
    obtain ⟨ul, hul, hrr⟩ := List.mem_flatMap.mp hr
    obtain ⟨hulmem, hulvalid⟩ := List.mem_filter.mp hul
    obtain ⟨a, ha, rfl⟩ := List.mem_map.mp hrr
    obtain ⟨hamem, hamatch⟩ := List.mem_filter.mp ha
    refine ⟨ul, hulmem, hulvalid, rfl, a, hamem, hamatch, ?_⟩
    have hsome : a.href.isSome = true := by
      rw [anchorMatches, Bool.and_eq_true] at hamatch
      exact hamatch.1
    cases hhref : a.href with
    | none => rw [hhref] at hsome; cases hsome
    | some v => rfl
  · intro D hp hv
    rw [legacyHtmlChildren, legacyHtmlChildren, hp, hv]

end Starmap
